import Mathlib

/-!
Verification of the version-resolution and transactional-update engine of the
`udd` dependency updater (`src/mod.ts`).

Strings are modelled as `List Char` so that the substring substitution
performed by `Udd.replace` (JavaScript `content.split(left).join(right)`)
can be reasoned about directly.  File I/O is modelled by threading the file
content through the functions as explicit state.  Collaborator modules that
are not part of the analysed source (`semver.ts`, `deps.ts`, `registry.ts`,
`search.ts`) are modelled from the specification; each such definition says
so in its doc comment.
-/

set_option maxHeartbeats 1000000

abbrev Str := List Char

deriving instance DecidableEq for Except

/-- Errors that JavaScript code in the model can raise: the `TypeError` from
calling a method on `undefined`, a `SyntaxError` with its message (raised by
constraint parsing), and a generic error used for registry fetch failures. -/
inductive JsError where
  | typeError
  | syntaxError (msg : Str)
  | fetchError (msg : Str)
deriving DecidableEq, Repr

/-- Prerelease identifier: numeric identifiers compare numerically and before
alphanumeric ones, per semver precedence. -/
inductive PreId where
  | num (n : Nat)
  | alpha (s : Str)
deriving DecidableEq, Repr

/-- Modelled from the spec: the `Semver` value of the missing `semver.ts` —
`major.minor.patch` plus optional prerelease identifiers and build metadata;
`version` keeps the original text (the `.version` property read back by
`Udd.update` when mapping compatible values to strings). -/
structure Semver where
  major : Nat
  minor : Nat
  patch : Nat
  prerelease : List PreId
  build : Str
  version : Str
deriving DecidableEq, Repr

/-- Split a list at every occurrence of the character `c` (like JavaScript
`String.split` with a one-character separator). -/
def splitOnCharL (c : Char) : Str → List Str
  | [] => [[]]
  | a :: s =>
    if a = c then [] :: splitOnCharL c s
    else
      match splitOnCharL c s with
      | [] => [[a]]
      | p :: ps => (a :: p) :: ps

/-- Parse a nonempty all-digit string as a natural number. -/
def parseNatStr (s : Str) : Option Nat :=
  if s ≠ [] ∧ s.all (·.isDigit) then
    some (s.foldl (fun n c => n * 10 + (c.toNat - 48)) 0)
  else none

/-- Modelled from the spec: prerelease text parsing of the missing
`semver.ts` — dot-separated, nonempty identifiers of alphanumerics and
hyphens; all-digit identifiers are numeric. -/
def parsePre (t : Str) : Option (List PreId) :=
  let parts := splitOnCharL '.' t
  if parts.all (fun p => !p.isEmpty && p.all (fun ch => ch.isAlphanum || ch == '-')) then
    some (parts.map (fun p =>
      if p.all (·.isDigit) then
        PreId.num (p.foldl (fun n c => n * 10 + (c.toNat - 48)) 0)
      else PreId.alpha p))
  else none

/-- Modelled from the spec: the parser of the missing `semver.ts` for the
grammar MAJOR.MINOR.PATCH[-PRERELEASE][+BUILD]; any other shape is not
semver (`none` plays the role of the `NotSemver` throw / `undefined`). -/
def parseSemver (s : Str) : Option Semver :=
  let core := s.takeWhile (· ≠ '+')
  let build := (s.dropWhile (· ≠ '+')).drop 1
  let main := core.takeWhile (· ≠ '-')
  let preTxt := (core.dropWhile (· ≠ '-')).drop 1
  match splitOnCharL '.' main with
  | [a, b, c] =>
    match parseNatStr a, parseNatStr b, parseNatStr c with
    | some ma, some mi, some pa =>
      if '-' ∈ core then
        match parsePre preTxt with
        | some ids => some ⟨ma, mi, pa, ids, build, s⟩
        | none => none
      else some ⟨ma, mi, pa, [], build, s⟩
    | _, _, _ => none
  | _ => none

/-- Lexicographic strict order on character lists. -/
def strLt : Str → Str → Bool
  | [], [] => false
  | [], _ :: _ => true
  | _ :: _, [] => false
  | a :: as, b :: bs => decide (a < b) || (a == b && strLt as bs)

/-- Semver precedence on prerelease identifiers: numeric before alphanumeric,
numeric by value, alphanumeric lexicographically. -/
def preIdLt : PreId → PreId → Bool
  | .num a, .num b => decide (a < b)
  | .num _, .alpha _ => true
  | .alpha _, .num _ => false
  | .alpha a, .alpha b => strLt a b

/-- Pairwise comparison of prerelease identifier lists; a shorter list that is
a prefix of a longer one comes first. -/
def preListLt : List PreId → List PreId → Bool
  | [], [] => false
  | [], _ :: _ => true
  | _ :: _, [] => false
  | a :: as, b :: bs => preIdLt a b || (a == b && preListLt as bs)

/-- Modelled from the spec: the strict semver precedence order of the missing
`semver.ts` — numeric fields first, then release above prerelease, then
prerelease identifiers pairwise. -/
def semverLt (a b : Semver) : Bool :=
  if a.major ≠ b.major then decide (a.major < b.major)
  else if a.minor ≠ b.minor then decide (a.minor < b.minor)
  else if a.patch ≠ b.patch then decide (a.patch < b.patch)
  else
    match a.prerelease, b.prerelease with
    | [], [] => false
    | _ :: _, [] => true
    | [], _ :: _ => false
    | x :: xs, y :: ys => preListLt (x :: xs) (y :: ys)

/-- Equality of semver values as versions (build metadata and original text
are ignored, per semver precedence). -/
def semverEq (a b : Semver) : Bool :=
  a.major == b.major && a.minor == b.minor && a.patch == b.patch &&
    a.prerelease == b.prerelease

/-- Constraint modifiers recognised by the constraint algebra. -/
inductive Modifier where
  | caret
  | tilde
  | exact
  | less
deriving DecidableEq, Repr

/-- Modelled from the spec: a parsed constraint of the missing `semver.ts` —
a modifier together with its base version (a first-order representation of
the predicate the source builds as a closure). -/
structure Constraint where
  mod : Modifier
  base : Semver
deriving DecidableEq, Repr

/-- Modelled from the spec: caret semantics — same major if major > 0, same
major.minor if major = 0 and minor > 0, exact patch if both are 0; and the
candidate is not below the base. -/
def caretMatch (base o : Semver) : Bool :=
  (if base.major > 0 then o.major == base.major
   else if base.minor > 0 then o.major == 0 && o.minor == base.minor
   else o.major == 0 && o.minor == 0 && o.patch == base.patch)
  && !(semverLt o base)

/-- Modelled from the spec: evaluation of a parsed constraint on a candidate
version (the predicate `(other: Semver) => boolean` of the source). -/
def Constraint.test (c : Constraint) (o : Semver) : Bool :=
  match c.mod with
  | .caret => caretMatch c.base o
  | .tilde => o.major == c.base.major && o.minor == c.base.minor &&
      decide (c.base.patch ≤ o.patch)
  | .exact => semverEq c.base o
  | .less => semverLt o c.base

/-- Recognise a constraint modifier character. -/
def parseModifier (c : Char) : Option Modifier :=
  if c = '^' then some .caret
  else if c = '~' then some .tilde
  else if c = '=' then some .exact
  else if c = '<' then some .less
  else none

/-- Modelled from the spec: `fragment(url, version)` of the missing
`semver.ts` — no `#` in the url means no constraint; otherwise the text after
the `#` must be a modifier character optionally followed by a version (the
current version is used when it is absent); malformed text raises a
`SyntaxError` whose message the orchestrator reports. -/
def fragment (url : Str) (version : Str) : Except JsError (Option Constraint) :=
  if '#' ∈ url then
    match (url.dropWhile (· ≠ '#')).drop 1 with
    | [] => .error (.syntaxError ("invalid version fragment".toList))
    | c :: rest =>
      match parseModifier c with
      | none => .error (.syntaxError ("invalid version fragment: ".toList ++ c :: rest))
      | some m =>
        let baseTxt := if rest.isEmpty then version else rest
        match parseSemver baseTxt with
        | none => .error (.syntaxError ("invalid version in fragment: ".toList ++ baseTxt))
        | some sv => .ok (some ⟨m, sv⟩)
  else .ok none

/-- Modelled from the spec: `getPrereleaseVersion` of the missing `deps.ts` —
the prerelease component of a version string, `none` (null) when the string
is not semver or carries no prerelease component. -/
def getPrereleaseVersion (s : Str) : Option (List PreId) :=
  match parseSemver s with
  | none => none
  | some v => if v.prerelease.isEmpty then none else some v.prerelease

/-- JavaScript string coercion used by template literals and `+`: the value
`undefined` prints as "undefined". -/
def jsToString : Option Str → Str
  | none => "undefined".toList
  | some s => s

/-- Modelled from the spec: `colors.yellow` of the `deps.ts` re-export of the
standard color module — wraps its argument in the ANSI open/close codes. -/
def yellow (s : Str) : Str :=
  Char.ofNat 27 :: "[33m".toList ++ s ++ Char.ofNat 27 :: "[39m".toList

/-- Leftmost, non-overlapping split of `s` at occurrences of the nonempty
separator `sep` (the behaviour of JavaScript `String.split` with a nonempty
string separator), formulated by well-founded recursion on the string; used
for reasoning and proved equal to the executable `splitOnL`. -/
def splitOnWF (sep : Str) (s : Str) : List Str :=
  match s with
  | [] => [[]]
  | a :: t =>
    if h : sep ≠ [] ∧ sep.isPrefixOf (a :: t) then
      [] :: splitOnWF sep ((a :: t).drop sep.length)
    else
      match splitOnWF sep t with
      | [] => [[a]]
      | p :: ps => (a :: p) :: ps
termination_by s.length
decreasing_by
  · simp only [List.length_drop, List.length_cons]
    have : 1 ≤ sep.length := List.length_pos.mpr h.1
    omega
  · simp

/-- The same split, by structural recursion on a fuel bound (so that the
kernel can evaluate it on concrete inputs). -/
def splitOnFuel (sep : Str) : Nat → Str → List Str
  | _, [] => [[]]
  | 0, a :: t => [a :: t]
  | fuel + 1, a :: t =>
    if sep ≠ [] ∧ sep.isPrefixOf (a :: t) then
      [] :: splitOnFuel sep fuel ((a :: t).drop sep.length)
    else
      match splitOnFuel sep fuel t with
      | [] => [[a]]
      | p :: ps => (a :: p) :: ps

/-- Leftmost, non-overlapping split of `s` at occurrences of the nonempty
separator `sep` (the behaviour of JavaScript `String.split` with a nonempty
string separator).  With `sep = []` it returns `[s]`; the JavaScript
empty-separator case is handled by `jsSplit`. -/
def splitOnL (sep s : Str) : List Str := splitOnFuel sep s.length s

/-- The fuel bound of `splitOnFuel` is irrelevant once it dominates the
string length. -/
theorem splitOnFuel_congr (sep : Str) :
    ∀ (f1 f2 : Nat) (s : Str), s.length ≤ f1 → s.length ≤ f2 →
      splitOnFuel sep f1 s = splitOnFuel sep f2 s := by
  intro f1
  induction f1 with
  | zero =>
    intro f2 s h1 _
    have hs : s = [] := List.length_eq_zero.mp (Nat.le_zero.mp h1)
    subst hs
    cases f2 <;> rfl
  | succ f ih =>
    intro f2 s h1 h2
    cases s with
    | nil => cases f2 <;> rfl
    | cons a t =>
      cases f2 with
      | zero => simp at h2
      | succ g =>
        simp only [List.length_cons, Nat.add_le_add_iff_right] at h1 h2
        by_cases hc : sep ≠ [] ∧ sep.isPrefixOf (a :: t) = true
        · rw [splitOnFuel, splitOnFuel, if_pos hc, if_pos hc]
          have hsl : 1 ≤ sep.length := List.length_pos.mpr hc.1
          have hd : ((a :: t).drop sep.length).length ≤ f := by
            simp only [List.length_drop, List.length_cons]
            omega
          have hd2 : ((a :: t).drop sep.length).length ≤ g := by
            simp only [List.length_drop, List.length_cons]
            omega
          rw [ih g ((a :: t).drop sep.length) hd hd2]
        · rw [splitOnFuel, splitOnFuel, if_neg hc, if_neg hc]
          rw [ih g t h1 h2]

/-- The executable split agrees with the well-founded formulation. -/
theorem splitOnL_eq_wf (sep s : Str) : splitOnL sep s = splitOnWF sep s := by
  induction s using splitOnWF.induct sep with
  | case1 => rw [splitOnWF]; rfl
  | case2 a t h ih =>
    rw [splitOnWF, dif_pos h]
    show splitOnFuel sep (t.length + 1) (a :: t) = _
    rw [splitOnFuel, if_pos h]
    rw [← ih]
    have hsl : 1 ≤ sep.length := List.length_pos.mpr h.1
    unfold splitOnL
    rw [splitOnFuel_congr sep t.length ((a :: t).drop sep.length).length
      ((a :: t).drop sep.length)
      (by simp only [List.length_drop, List.length_cons]; omega) (le_refl _)]
  | case3 a t h hsp ih =>
    rw [splitOnWF, dif_neg h, hsp]
    show splitOnFuel sep (t.length + 1) (a :: t) = _
    rw [splitOnFuel, if_neg h]
    show (match splitOnFuel sep t.length t with
      | [] => [[a]]
      | p :: ps => (a :: p) :: ps) = _
    rw [show splitOnFuel sep t.length t = splitOnL sep t from rfl, ih, hsp]
  | case4 a t h p ps hsp ih =>
    rw [splitOnWF, dif_neg h, hsp]
    show splitOnFuel sep (t.length + 1) (a :: t) = _
    rw [splitOnFuel, if_neg h]
    show (match splitOnFuel sep t.length t with
      | [] => [[a]]
      | p :: ps => (a :: p) :: ps) = _
    rw [show splitOnFuel sep t.length t = splitOnL sep t from rfl, ih, hsp]

/-- JavaScript `Array.join` with separator `sep`. -/
def joinSep (sep : Str) : List Str → Str
  | [] => []
  | [p] => p
  | p :: q :: ps => p ++ sep ++ joinSep sep (q :: ps)

/-- JavaScript `String.split`: a nonempty separator splits leftmost
non-overlapping; the empty separator splits into single characters. -/
def jsSplit (sep : Str) (s : Str) : List Str :=
  if sep = [] then s.map (fun a => [a]) else splitOnL sep s

/-- The body of `Udd.replace`: `content.split(left).join(right)`. -/
def replaceStr (left right content : Str) : Str :=
  joinSep right (jsSplit left content)

/-- Modelled from the spec: the registry instance of the missing
`registry.ts`, split into its capabilities — `vers` extracts the version
token of a url (`version()`), `atv` rewrites the version component of a url
(`at(version).url`, fragment preserved by concrete variants), and `allR` is
the awaited result of the `all()` network fetch (an error models a thrown
fetch failure).  The mutable `url` property is threaded explicitly as a
`Str` argument instead of being stored in the instance. -/
structure RegistryUrl where
  vers : Str → Str
  atv : Str → Str → Str
  allR : Except JsError (List Str)

/-- Options of `Udd` (`UddOptions`): `dryRun` suppresses all writes; `test`
models the validation callback — `true` when the callback resolves, `false`
when it rejects (`quiet` only affects progress printing and is omitted). -/
structure UddOptions where
  dryRun : Bool
  test : Bool

/-- Outcome record `UddResult` of `mod.ts`. -/
structure UddResult where
  initUrl : Str
  initVersion : Str
  message : Option Str := none
  success : Option Bool := none
deriving DecidableEq, Repr

/-- The modifier relocation of `Udd.update` (lines 86–91): when the version
token starts with one of `~ ^ = <` and the url carries no `#` yet, the url
becomes `at(initVersion.slice(1)).url + "#" + initVersion[0]` and the
one-character token is remembered.  Returns the (possibly rewritten) url and
the remembered token. -/
def relocateRef (reg : RegistryUrl) (u0 : Str) : Str × Option Str :=
  match reg.vers u0 with
  | [] => (u0, none)
  | c :: rest =>
    if (c = '~' ∨ c = '^' ∨ c = '=' ∨ c = '<') ∧ '#' ∉ u0 then
      (reg.atv u0 rest ++ '#' :: [c], some [c])
    else (u0, none)

/-- The catch around the `fragment` call in `Udd.update` (lines 112–125): a
`SyntaxError` is converted into a reported message, any other error is
re-thrown. -/
def fragmentCaught :
    Except JsError (Option Constraint) → Except JsError (Option Constraint ⊕ Str)
  | .ok f => .ok (.inl f)
  | .error (.syntaxError m) => .ok (.inr m)
  | .error e => .error e

/-- What `Udd.update` decides to do for one reference, after the version
resolution (a first-order record of the control path taken). -/
inductive Decision where
  | skip
  | syntaxErr (msg : Str)
  | noCompatible
  | noChange
  | upgrade (newVersion : Option Str) (tok : Option Str) (newUrl : Str)
deriving DecidableEq, Repr

/-- Lines 143–151 of `Udd.update`: re-attach a relocated modifier token to
the chosen version (a JavaScript template literal, so an `undefined` version
prints as "undefined"), then report no-change when the token equals the
current version and no relocation happened. -/
def finishDecision (reg : RegistryUrl) (u' : Str) (tok : Option Str)
    (nv : Option Str) : Decision :=
  let nv2 : Option Str :=
    match tok with
    | some t => some (t ++ jsToString nv)
    | none => nv
  if nv2 = some (reg.vers u') ∧ tok = none then .noChange
  else .upgrade nv2 tok u'

/-- Lines 101–106 of `Udd.update`: when the version token of the source file
is not a prerelease, prerelease versions are filtered out of the fetched
candidate list. -/
def candidateVersions (initVersion : Str) (versions : List Str) : List Str :=
  if (getPrereleaseVersion initVersion).isSome then versions
  else versions.filter (fun v => (getPrereleaseVersion v).isNone)

/-- Line 129–131 of `Udd.update`: the fetched versions that parse as semver
and satisfy the constraint, mapped back to their original text, in provider
order. -/
def compatList (f : Constraint) (versions2 : List Str) : List Str :=
  ((versions2.filterMap parseSemver).filter
    (fun x => Constraint.test f x)).map (fun x => x.version)

/-- The pure resolution core of `Udd.update` (lines 86–151), given the
fetched version list: modifier relocation (a `TypeError` is thrown when the
version token is empty, since `initVersion[0]` is `undefined`), the semver
skip check, the prerelease filter, default target `versions[0]`, constraint
parsing with its catch, constraint filtering with the
"no compatible version found" failure, and the final no-change check. -/
def decideUpdate (reg : RegistryUrl) (u0 : Str) (versions : List Str) :
    Except JsError Decision :=
  let initVersion := reg.vers u0
  if initVersion = [] then .error .typeError
  else
    let (u', tok) := relocateRef reg u0
    match parseSemver (reg.vers u') with
    | none => .ok .skip
    | some _ =>
      let versions2 := candidateVersions initVersion versions
      match fragmentCaught (fragment u' (reg.vers u')) with
      | .error e => .error e
      | .ok (.inr m) => .ok (.syntaxErr m)
      | .ok (.inl none) => .ok (finishDecision reg u' tok versions2.head?)
      | .ok (.inl (some f)) =>
        match compatList f versions2 with
        | [] => .ok .noCompatible
        | v :: _ => .ok (finishDecision reg u' tok (some v))

/-- Model of `Udd.maybeReplace` (lines 172–185) together with the two `Udd.replace`
calls it performs, acting on the file content: substitute `initUrl` by the
new url, run the validation callback, substitute back when it failed.
Returns the `failed` flag and the resulting file content. -/
def maybeReplace (o : UddOptions) (reg : RegistryUrl) (u' : Str)
    (nv : Option Str) (initUrl : Str) (file : Str) : Bool × Str :=
  let newUrl := reg.atv u' (jsToString nv)
  let file1 := replaceStr initUrl newUrl file
  let failed := !o.test
  let file2 := if failed then replaceStr newUrl initUrl file1 else file1
  (failed, file2)

/-- Model of `Udd.update` (lines 77–169): fetch the versions, resolve a decision, and
act on it — skip and no-change return the bare outcome, failures return a
message with `success := false`, an upgrade performs the transactional
replace (skipped under `dryRun`) and reports
`message = newVersion + colors.yellow(maybeFragment)` and
`success = !failed`. -/
def update (o : UddOptions) (reg : RegistryUrl) (u0 : Str) (file : Str) :
    Except JsError (UddResult × Str) :=
  let initUrl := u0
  let initVersion := reg.vers u0
  match reg.allR with
  | .error e => .error e
  | .ok versions =>
    match decideUpdate reg u0 versions with
    | .error e => .error e
    | .ok .skip => .ok ({ initUrl, initVersion }, file)
    | .ok (.syntaxErr m) =>
      .ok ({ initUrl, initVersion, success := some false, message := some m }, file)
    | .ok .noCompatible =>
      .ok ({ initUrl, initVersion, success := some false,
             message := some ("no compatible version found".toList) }, file)
    | .ok .noChange => .ok ({ initUrl, initVersion }, file)
    | .ok (.upgrade nv tok u') =>
      let (failed, file') :=
        if o.dryRun then (false, file) else maybeReplace o reg u' nv initUrl file
      let maybeFragment : Str :=
        match tok with
        | none => []
        | some t => '#' :: t
      .ok ({ initUrl, initVersion,
             message := some (jsToString nv ++ yellow maybeFragment),
             success := some (!failed) }, file')

/-- The loop of `Udd.run` (lines 66–73): references whose url matches no
registry are skipped; each matched reference is updated in turn, threading
the file content; an error thrown by `update` propagates and aborts the
loop. -/
def runLoop (o : UddOptions) (lookup : Str → Option RegistryUrl) :
    List Str → Str → Except JsError (List UddResult × Str)
  | [], file => .ok ([], file)
  | u :: us, file =>
    match lookup u with
    | none => runLoop o lookup us file
    | some reg =>
      match update o reg u file with
      | .error e => .error e
      | .ok (res, file') =>
        match runLoop o lookup us file' with
        | .error e => .error e
        | .ok (rest, file'') => .ok (res :: rest, file'')

/-- Model of `Udd.run` (lines 59–75): the url list is computed once from the initial
file content by the import scan (`importUrls`, a collaborator passed here as
`scan`), then the loop processes each reference. -/
def runUdd (o : UddOptions) (scan : Str → List Str)
    (lookup : Str → Option RegistryUrl) (file : Str) :
    Except JsError (List UddResult × Str) :=
  runLoop o lookup (scan file) file

/-- A concrete registry variant for instantiating theorems: urls of the shape
`name@version/path[#fragment]`; the version component sits between the first
`@` and the following `/`. -/
def fakeVers (u : Str) : Str :=
  ((u.dropWhile (· ≠ '@')).drop 1).takeWhile (· ≠ '/')

/-- Model of `at(version).url` of the concrete registry variant: replace the version
component, keeping everything from the following `/` on (fragment
preserved). -/
def fakeAt (u v : Str) : Str :=
  u.takeWhile (· ≠ '@') ++ '@' :: v ++
    ((u.dropWhile (· ≠ '@')).drop 1).dropWhile (· ≠ '/')

/-- A concrete registry instance with a given fetch result. -/
def fakeReg (fetched : Except JsError (List Str)) : RegistryUrl :=
  ⟨fakeVers, fakeAt, fetched⟩

/-- Splitting as in `Udd.replace` never produces an empty piece list. -/
theorem splitOnWF_ne_nil (sep s : Str) : splitOnWF sep s ≠ [] := by
  induction s using splitOnWF.induct sep with
  | case1 => simp [splitOnWF]
  | case2 a t h ih => rw [splitOnWF, dif_pos h]; simp
  | case3 a t h hsp ih => exact absurd hsp ih
  | case4 a t h p ps hsp ih => rw [splitOnWF, dif_neg h, hsp]; simp

/-- Joining a piece list whose head starts with `a` starts with `a`. -/
theorem joinSep_cons_cons (sep : Str) (a : Char) (p : Str) (ps : List Str) :
    joinSep sep ((a :: p) :: ps) = a :: joinSep sep (p :: ps) := by
  cases ps <;> simp [joinSep]

/-- Splitting on a nonempty separator and rejoining with it restores the
string (`s.split(l).join(l) = s`). -/
theorem joinSep_splitOnWF (sep : Str) (hsep : sep ≠ []) (s : Str) :
    joinSep sep (splitOnWF sep s) = s := by
  induction s using splitOnWF.induct sep with
  | case1 => simp [splitOnWF, joinSep]
  | case2 a t h ih =>
    rw [splitOnWF, dif_pos h]
    obtain ⟨u, hu⟩ := List.isPrefixOf_iff_prefix.mp h.2
    have hd : List.drop sep.length (a :: t) = u := by
      rw [← hu, List.drop_left]
    rw [hd] at ih ⊢
    cases hq : splitOnWF sep u with
    | nil => exact absurd hq (splitOnWF_ne_nil sep u)
    | cons q qs =>
      rw [hq] at ih
      show joinSep sep ([] :: q :: qs) = a :: t
      rw [show joinSep sep ([] :: q :: qs) = sep ++ joinSep sep (q :: qs) by
        simp [joinSep]]
      rw [ih, hu]
  | case3 a t h hsp ih => exact absurd hsp (splitOnWF_ne_nil sep t)
  | case4 a t h p ps hsp ih =>
    rw [splitOnWF, dif_neg h, hsp, joinSep_cons_cons, ← hsp, ih]

/-- The head piece of a split is a prefix of the string. -/
theorem splitOnWF_head_pre (sep s p : Str) (ps : List Str)
    (h : splitOnWF sep s = p :: ps) : p <+: s := by
  induction s using splitOnWF.induct sep generalizing p ps with
  | case1 =>
    simp only [splitOnWF] at h
    cases h; exact List.nil_prefix
  | case2 a t hc ih =>
    rw [splitOnWF, dif_pos hc] at h
    cases h; exact List.nil_prefix
  | case3 a t hc hsp ih => exact absurd hsp (splitOnWF_ne_nil sep t)
  | case4 a t hc p0 ps0 hsp ih =>
    rw [splitOnWF, dif_neg hc, hsp] at h
    cases h
    exact (List.cons_prefix_cons).mpr ⟨rfl, ih p0 ps0 hsp⟩

/-- Every piece of a split is an infix of the string. -/
theorem splitOnWF_mem_infixes (sep s : Str) : ∀ p ∈ splitOnWF sep s, p <:+: s := by
  induction s using splitOnWF.induct sep with
  | case1 =>
    intro p hp
    simp only [splitOnWF, List.mem_singleton] at hp
    simp [hp]
  | case2 a t hc ih =>
    intro p hp
    rw [splitOnWF, dif_pos hc] at hp
    rcases List.mem_cons.mp hp with h0 | h0
    · simp [h0]
    · exact (ih p h0).trans ( List.drop_suffix _ _).isInfix
  | case3 a t hc hsp ih => exact absurd hsp (splitOnWF_ne_nil sep t)
  | case4 a t hc p0 ps0 hsp ih =>
    intro p hp
    rw [splitOnWF, dif_neg hc, hsp] at hp
    rcases List.mem_cons.mp hp with h0 | h0
    · subst h0
      exact ((List.cons_prefix_cons).mpr
        ⟨rfl, splitOnWF_head_pre sep t p0 ps0 hsp⟩).isInfix
    · exact List.infix_cons (ih p (hsp ▸ List.mem_cons_of_mem p0 h0))

/-- A string not containing the separator splits into a single piece. -/
theorem splitOnWF_eq_single (sep p : Str) (hsep : sep ≠ [])
    (h : ¬ sep <:+: p) : splitOnWF sep p = [p] := by
  induction p with
  | nil => simp [splitOnWF]
  | cons a t ih =>
    have hnp : ¬(sep ≠ [] ∧ sep.isPrefixOf (a :: t) = true) := by
      rintro ⟨-, hpre⟩
      exact h ((List.isPrefixOf_iff_prefix.mp hpre).isInfix)
    have hnt : ¬ sep <:+: t :=
      fun hc => h (List.infix_cons hc)
    rw [splitOnWF, dif_neg hnp, ih hnt]

/-- A string is unbordered when no nonempty proper prefix of it is also a
suffix of it.  The inserted occurrences of an unbordered replacement string
are the only ones the inverse substitution can find, which is what makes the
rollback of `Udd.maybeReplace` exact. -/
def UnborderedStr (r : Str) : Prop :=
  ∀ k, 0 < k → k < r.length → ¬ r.take k <:+ r

instance (r : Str) : Decidable (UnborderedStr r) :=
  decidable_of_iff (∀ k, k < r.length → 0 < k → ¬ r.take k <:+ r)
    ⟨fun h k h1 h2 => h k h2 h1, fun h k h1 h2 => h k h2 h1⟩

/-- An unbordered string admits no nonempty proper border. -/
theorem unbordered_no_border {r q : Str} (hu : UnborderedStr r) (hq : q ≠ [])
    (hlt : q.length < r.length) (hp : q <+: r) (hs : q <:+ r) : False := by
  have hk : q = r.take q.length := List.prefix_iff_eq_take.mp hp
  exact hu q.length (List.length_pos.mpr hq) hlt (hk ▸ hs)

/-- Splitting at an unbordered separator finds exactly the inserted
occurrence: the piece before it contains no occurrence, and no occurrence
can straddle the boundary. -/
theorem splitOnWF_append_sep (r : Str) (hr : r ≠ []) (hu : UnborderedStr r) :
    ∀ (p rest : Str), ¬ r <:+: p →
      splitOnWF r (p ++ r ++ rest) = p :: splitOnWF r rest := by
  intro p
  induction p with
  | nil =>
    intro rest _
    obtain ⟨c, r', hr'⟩ := List.exists_cons_of_ne_nil hr
    subst hr'
    have hshape : ([] : Str) ++ (c :: r') ++ rest = c :: (r' ++ rest) := by simp
    rw [hshape, splitOnWF]
    have hpos : (c :: r' : Str) ≠ [] ∧
        (c :: r').isPrefixOf (c :: (r' ++ rest)) = true := by
      refine ⟨by simp, List.isPrefixOf_iff_prefix.mpr ?_⟩
      rw [show c :: (r' ++ rest) = (c :: r') ++ rest by simp]
      exact List.prefix_append _ _
    rw [dif_pos hpos]
    congr 1
    rw [show c :: (r' ++ rest) = (c :: r') ++ rest by simp, List.drop_left]
  | cons a p' ihp =>
    intro rest hni
    have hni' : ¬ r <:+: p' := fun hc => hni (List.infix_cons hc)
    have hstep : ¬ (r.isPrefixOf (a :: (p' ++ r ++ rest)) = true) := by
      intro hpre
      have hpre' : r <+: (a :: p') ++ ((r ++ rest) : Str) := by
        have h0 := List.isPrefixOf_iff_prefix.mp hpre
        simpa [List.append_assoc] using h0
      by_cases hlen : r.length ≤ (a :: p').length
      · have h1 : r = ((a :: p') ++ (r ++ rest)).take r.length :=
          List.prefix_iff_eq_take.mp hpre'
        rw [ List.take_append_of_le_length hlen] at h1
        have h2 : r <+: a :: p' := h1 ▸ List.take_prefix _ _
        exact hni h2.isInfix
      · push_neg at hlen
        have hp2 : (a :: p') <+: r :=
          List.prefix_of_prefix_length_le (List.prefix_append _ _) hpre'
            (le_of_lt hlen)
        obtain ⟨q, hq⟩ := hp2
        have hqlt : q.length < r.length := by
          have := congrArg List.length hq
          simp only [List.length_append, List.length_cons] at this
          omega
        have hqne : q ≠ [] := by
          intro h0
          rw [h0, List.append_nil] at hq
          rw [← hq] at hlen
          exact lt_irrefl _ hlen
        have hqs : q <:+ r := ⟨a :: p', hq⟩
        have hqp : q <+: r := by
          obtain ⟨w, hw⟩ := hpre'
          have hw2 : (a :: p') ++ (q ++ w) = (a :: p') ++ (r ++ rest) := by
            rw [← List.append_assoc, hq, hw]
          have hq2 : q <+: r ++ rest := ⟨w, List.append_cancel_left hw2⟩
          have h3 : q = (r ++ rest).take q.length :=
            List.prefix_iff_eq_take.mp hq2
          rw [ List.take_append_of_le_length (le_of_lt hqlt)] at h3
          exact h3 ▸ List.take_prefix _ _
        exact unbordered_no_border hu hqne hqlt hqp hqs
    have hcond : ¬(r ≠ [] ∧ r.isPrefixOf (a :: (p' ++ r ++ rest)) = true) := by
      rintro ⟨-, hpre⟩; exact hstep hpre
    have hshape : (a :: p') ++ r ++ rest = a :: (p' ++ r ++ rest) := by
      simp [List.append_assoc]
    rw [hshape, splitOnWF, dif_neg hcond, ihp rest hni']

/-- Inverse of joining: splitting the join of contamination-free pieces at an
unbordered separator recovers the pieces. -/
theorem splitOnWF_joinSep (r : Str) (hr : r ≠ []) (hu : UnborderedStr r) :
    ∀ (pieces : List Str), pieces ≠ [] → (∀ p ∈ pieces, ¬ r <:+: p) →
      splitOnWF r (joinSep r pieces) = pieces := by
  intro pieces
  induction pieces with
  | nil => intro h _; exact absurd rfl h
  | cons p ps ih =>
    intro _ hclean
    cases ps with
    | nil =>
      show splitOnWF r (joinSep r [p]) = [p]
      rw [show joinSep r [p] = p from rfl]
      exact splitOnWF_eq_single r p hr (hclean p (List.mem_singleton.mpr rfl))
    | cons q qs =>
      rw [show joinSep r (p :: q :: qs) = p ++ r ++ joinSep r (q :: qs) from rfl]
      rw [splitOnWF_append_sep r hr hu p (joinSep r (q :: qs))
        (hclean p (List.mem_cons_self p _))]
      rw [ih (by simp) (fun x hx => hclean x (List.mem_cons_of_mem p hx))]

/-- Rollback of one transactional replace: substituting `l → r` and then
`r → l` restores the content, provided both are nonempty, `r` is unbordered
and `r` did not already occur in the content. -/
theorem replaceStr_rollback (l r s : Str) (hl : l ≠ []) (hr : r ≠ [])
    (hu : UnborderedStr r) (hni : ¬ r <:+: s) :
    replaceStr r l (replaceStr l r s) = s := by
  unfold replaceStr jsSplit
  rw [if_neg hl, if_neg hr]
  simp only [splitOnL_eq_wf]
  rw [splitOnWF_joinSep r hr hu (splitOnWF l s) (splitOnWF_ne_nil l s)
    (fun p hp hc => hni (hc.trans (splitOnWF_mem_infixes l s p hp)))]
  exact joinSep_splitOnWF l hl s

/-- The url that `Udd.maybeReplace` would write for a reference — present
exactly when the resolution decides to perform a replace. -/
def newUrlOf (reg : RegistryUrl) (u0 : Str) : Option Str :=
  match reg.allR with
  | .error _ => none
  | .ok versions =>
    match decideUpdate reg u0 versions with
    | .ok (.upgrade nv _ u') => some (reg.atv u' (jsToString nv))
    | _ => none

/-- Side conditions under which the two substitutions of the
replace/validate/rollback cycle of one reference invert each other on a
given file content: the original url and the written url are nonempty, the
written url is unbordered and does not already occur in the content. -/
def refReplaceCond (lookup : Str → Option RegistryUrl) (file u : Str) : Bool :=
  match lookup u with
  | none => true
  | some reg =>
    match newUrlOf reg u with
    | none => true
    | some nu =>
      decide (u ≠ []) && decide (nu ≠ []) && decide (UnborderedStr nu) &&
        decide (¬ nu <:+: file)

/-- One failing update restores the file: when the validation callback
rejects, `Udd.update` leaves the file content as it found it, provided the
written url is nonempty, unbordered and absent from the content. -/
theorem update_restores (o : UddOptions) (reg : RegistryUrl) (u0 file : Str)
    (htest : o.test = false)
    (hurl : ∀ nu, newUrlOf reg u0 = some nu →
      u0 ≠ [] ∧ nu ≠ [] ∧ UnborderedStr nu ∧ ¬ nu <:+: file)
    (res : UddResult) (file' : Str)
    (h : update o reg u0 file = .ok (res, file')) : file' = file := by
  unfold update at h
  cases hall : reg.allR with
  | error e => rw [hall] at h; exact absurd h (by simp)
  | ok versions =>
    rw [hall] at h
    dsimp only at h
    cases hdec : decideUpdate reg u0 versions with
    | error e => rw [hdec] at h; exact absurd h (by simp)
    | ok d =>
      rw [hdec] at h
      cases d with
      | skip => simp at h; exact h.2.symm
      | syntaxErr m => simp at h; exact h.2.symm
      | noCompatible => simp at h; exact h.2.symm
      | noChange => simp at h; exact h.2.symm
      | upgrade nv tok u' =>
        have hnu : newUrlOf reg u0 = some (reg.atv u' (jsToString nv)) := by
          unfold newUrlOf
          rw [hall]
          dsimp only
          rw [hdec]
        obtain ⟨h1, h2, h3, h4⟩ := hurl _ hnu
        cases hdry : o.dryRun with
        | true =>
          simp [hdry] at h
          exact h.2.symm
        | false =>
          simp [hdry, maybeReplace, htest] at h
          rw [← h.2]
          exact replaceStr_rollback u0 (reg.atv u' (jsToString nv)) file
            h1 h2 h3 h4

/-- The loop of `Udd.run` restores the file when every update fails its
validation and every written url satisfies the rollback side conditions
against the original content. -/
theorem runLoop_restores (o : UddOptions)
    (lookup : Str → Option RegistryUrl) (htest : o.test = false) :
    ∀ (urls : List Str) (file : Str),
      (∀ u ∈ urls, refReplaceCond lookup file u = true) →
      ∀ res file', runLoop o lookup urls file = .ok (res, file') →
        file' = file := by
  intro urls
  induction urls with
  | nil =>
    intro file _ res file' h
    simp only [runLoop, Except.ok.injEq, Prod.mk.injEq] at h
    exact h.2.symm
  | cons u us ih =>
    intro file hcond res file' h
    unfold runLoop at h
    cases hlk : lookup u with
    | none =>
      rw [hlk] at h
      exact ih file (fun v hv => hcond v (List.mem_cons_of_mem u hv)) res file' h
    | some reg =>
      rw [hlk] at h
      dsimp only at h
      cases hup : update o reg u file with
      | error e => rw [hup] at h; exact absurd h (by simp)
      | ok p =>
        obtain ⟨res1, f1⟩ := p
        rw [hup] at h
        dsimp only at h
        have hf1 : f1 = file := by
          refine update_restores o reg u file htest ?_ res1 f1 hup
          intro nu hnu
          have hc := hcond u (List.mem_cons_self u us)
          unfold refReplaceCond at hc
          rw [hlk] at hc
          dsimp only at hc
          rw [hnu] at hc
          simp only [Bool.and_eq_true, decide_eq_true_eq] at hc
          exact ⟨hc.1.1.1, hc.1.1.2, hc.1.2, hc.2⟩
        subst hf1
        cases hrest : runLoop o lookup us f1 with
        | error e => rw [hrest] at h; exact absurd h (by simp)
        | ok q =>
          obtain ⟨rest, f2⟩ := q
          rw [hrest] at h
          simp only [Except.ok.injEq, Prod.mk.injEq] at h
          rw [← h.2]
          exact ih f1 (fun v hv => hcond v (List.mem_cons_of_mem u hv))
            rest f2 hrest

/-- C1 (amended): for every run in which the supplied validation callback
always fails, each update performs the forward substitution, observes the
validation failure, performs the inverse substitution and marks the outcome
failed; and — provided every url the forward substitution would write is
nonempty, unbordered and does not already occur in the file content, and
every reference url is nonempty — the file content after `run` completes
equals the file content before `run` started, for any chosen target
version. -/
theorem c1_rollback_of_always_failing_test (o : UddOptions)
    (scan : Str → List Str) (lookup : Str → Option RegistryUrl) (file : Str)
    (htest : o.test = false)
    (hcond : ∀ u ∈ scan file, refReplaceCond lookup file u = true)
    (res : List UddResult) (file' : Str)
    (h : runUdd o scan lookup file = .ok (res, file')) : file' = file :=
  runLoop_restores o lookup htest (scan file) file hcond res file' h

/-- Witness for C1: a concrete run with an always-failing validation callback
whose side conditions all hold, restored exactly. -/
theorem c1_rollback_witness :
    ("a x@1.0.0/y b".toList : Str) = "a x@1.0.0/y b".toList :=
  c1_rollback_of_always_failing_test ⟨false, false⟩
    (fun _ => ["x@1.0.0/y".toList])
    (fun v => if v = "x@1.0.0/y".toList then
      some (fakeReg (.ok ["2.0.0".toList])) else none)
    ("a x@1.0.0/y b".toList) rfl (by decide)
    [⟨"x@1.0.0/y".toList, "1.0.0".toList,
      some ("2.0.0".toList ++ yellow []), some false⟩]
    ("a x@1.0.0/y b".toList) (by decide)

/-- Counterexample to C1 as stated: when the newly written url already occurs
in the file, the inverse substitution rewrites that pre-existing occurrence
too, so a run whose validation callback always fails does not restore the
original content. -/
theorem c1_rollback_counterexample :
    (runUdd ⟨false, false⟩ (fun _ => ["x@1.0.0/y".toList])
        (fun v => if v = "x@1.0.0/y".toList then
          some (fakeReg (.ok ["2.0.0".toList])) else none)
        ("x@1.0.0/y x@2.0.0/y".toList)).map (fun p => p.2)
      = .ok ("x@1.0.0/y x@1.0.0/y".toList) ∧
    ("x@1.0.0/y x@1.0.0/y".toList : Str) ≠ "x@1.0.0/y x@2.0.0/y".toList := by
  constructor
  · decide
  · decide

/-- Under `dryRun` a single `update` never changes the file content. -/
theorem update_dryRun_preserves (o : UddOptions) (reg : RegistryUrl)
    (u0 file : Str) (hdry : o.dryRun = true)
    (res : UddResult) (file' : Str)
    (h : update o reg u0 file = .ok (res, file')) : file' = file := by
  unfold update at h
  cases hall : reg.allR with
  | error e => rw [hall] at h; exact absurd h (by simp)
  | ok versions =>
    rw [hall] at h
    dsimp only at h
    cases hdec : decideUpdate reg u0 versions with
    | error e => rw [hdec] at h; exact absurd h (by simp)
    | ok d =>
      rw [hdec] at h
      cases d with
      | skip => simp at h; exact h.2.symm
      | syntaxErr m => simp at h; exact h.2.symm
      | noCompatible => simp at h; exact h.2.symm
      | noChange => simp at h; exact h.2.symm
      | upgrade nv tok u' => simp [hdry] at h; exact h.2.symm

/-- Under `dryRun` the loop of `Udd.run` never changes the file content. -/
theorem runLoop_dryRun (o : UddOptions) (lookup : Str → Option RegistryUrl)
    (hdry : o.dryRun = true) :
    ∀ (urls : List Str) (file : Str) (res : List UddResult) (file' : Str),
      runLoop o lookup urls file = .ok (res, file') → file' = file := by
  intro urls
  induction urls with
  | nil =>
    intro file res file' h
    simp only [runLoop, Except.ok.injEq, Prod.mk.injEq] at h
    exact h.2.symm
  | cons u us ih =>
    intro file res file' h
    unfold runLoop at h
    cases hlk : lookup u with
    | none => rw [hlk] at h; exact ih file res file' h
    | some reg =>
      rw [hlk] at h
      dsimp only at h
      cases hup : update o reg u file with
      | error e => rw [hup] at h; exact absurd h (by simp)
      | ok p =>
        obtain ⟨res1, f1⟩ := p
        rw [hup] at h
        dsimp only at h
        have hf1 : f1 = file := update_dryRun_preserves o reg u file hdry res1 f1 hup
        subst hf1
        cases hrest : runLoop o lookup us f1 with
        | error e => rw [hrest] at h; exact absurd h (by simp)
        | ok q =>
          obtain ⟨rest, f2⟩ := q
          rw [hrest] at h
          simp only [Except.ok.injEq, Prod.mk.injEq] at h
          rw [← h.2]
          exact ih f1 rest f2 hrest

/-- C8: with `dryRun = true` the target file content is never written —
resolution proceeds, but any completed run leaves the file content exactly
as it was. -/
theorem c8_dryRun_never_writes (o : UddOptions) (scan : Str → List Str)
    (lookup : Str → Option RegistryUrl) (file : Str)
    (hdry : o.dryRun = true) (res : List UddResult) (file' : Str)
    (h : runUdd o scan lookup file = .ok (res, file')) : file' = file :=
  runLoop_dryRun o lookup hdry (scan file) file res file' h

/-- Witness for C8: a concrete dry run that resolves an upgrade and leaves
the file untouched. -/
theorem c8_dryRun_witness :
    ("a x@1.0.0/y b".toList : Str) = "a x@1.0.0/y b".toList :=
  c8_dryRun_never_writes ⟨true, true⟩
    (fun _ => ["x@1.0.0/y".toList])
    (fun v => if v = "x@1.0.0/y".toList then
      some (fakeReg (.ok ["1.2.0".toList, "1.1.0".toList, "1.0.0".toList])) else none)
    ("a x@1.0.0/y b".toList) rfl
    [⟨"x@1.0.0/y".toList, "1.0.0".toList,
      some ("1.2.0".toList ++ yellow []), some true⟩]
    ("a x@1.0.0/y b".toList) (by decide)

/-- C10: when the matched reference's version token is the empty string,
`update` raises the TypeError produced by `initVersion[0].match` instead of
taking the non-semver skip path — a nonempty version token is an unstated
precondition of `update`. -/
theorem c10_empty_version_typeError (o : UddOptions) (reg : RegistryUrl)
    (u0 file : Str) (versions : List Str) (hall : reg.allR = .ok versions)
    (hv : reg.vers u0 = []) :
    update o reg u0 file = .error .typeError := by
  unfold update
  rw [hall]
  dsimp only
  have hdec : decideUpdate reg u0 versions = .error .typeError := by
    unfold decideUpdate
    rw [hv]
    simp
  rw [hdec]

/-- Witness for C10: a concrete registry whose extracted version token is
empty makes `update` throw. -/
theorem c10_empty_version_witness :
    update ⟨false, true⟩ (fakeReg (.ok [])) "x@/m".toList "f".toList
      = .error .typeError :=
  c10_empty_version_typeError ⟨false, true⟩ (fakeReg (.ok []))
    "x@/m".toList "f".toList [] rfl (by decide)

/-- C6: a reference whose (possibly modifier-stripped) version token does not
parse as semver is skipped entirely: the outcome carries only `initUrl` and
`initVersion` — neither `message` nor `success` — and the file content is
unchanged. -/
theorem c6_nonsemver_skips (o : UddOptions) (reg : RegistryUrl)
    (u0 file : Str) (versions : List Str) (hall : reg.allR = .ok versions)
    (hne : reg.vers u0 ≠ [])
    (hparse : parseSemver (reg.vers (relocateRef reg u0).1) = none) :
    update o reg u0 file =
      .ok ({ initUrl := u0, initVersion := reg.vers u0,
             message := none, success := none }, file) := by
  unfold update
  rw [hall]
  dsimp only
  have hdec : decideUpdate reg u0 versions = .ok .skip := by
    unfold decideUpdate
    rw [if_neg hne]
    rcases hp : relocateRef reg u0 with ⟨u2, tok2⟩
    have hparse2 : parseSemver (reg.vers u2) = none := by
      rw [hp] at hparse
      exact hparse
    dsimp only
    rw [hparse2]
  rw [hdec]

/-- Witness for C6: version token "main". -/
theorem c6_nonsemver_witness :
    update ⟨false, true⟩ (fakeReg (.ok ["1.4.2".toList]))
      "x@main/m".toList "f x@main/m g".toList
      = .ok ({ initUrl := "x@main/m".toList, initVersion := "main".toList,
               message := none, success := none }, "f x@main/m g".toList) :=
  c6_nonsemver_skips ⟨false, true⟩ (fakeReg (.ok ["1.4.2".toList]))
    "x@main/m".toList "f x@main/m g".toList ["1.4.2".toList]
    rfl (by decide) (by decide)

/-- Defining equation of the run loop at a cons cell. -/
theorem runLoop_cons (o : UddOptions) (lookup : Str → Option RegistryUrl)
    (u : Str) (us : List Str) (file : Str) :
    runLoop o lookup (u :: us) file =
      match lookup u with
      | none => runLoop o lookup us file
      | some reg =>
        match update o reg u file with
        | .error e => .error e
        | .ok (res, file') =>
          match runLoop o lookup us file' with
          | .error e => .error e
          | .ok (rest, file'') => .ok (res :: rest, file'') := rfl

/-- C7: a registry fetch error propagates uncaught out of `update` and out of
the run loop, so the whole invocation aborts with no outcomes; whereas any
reference whose update returns an outcome (as all per-reference failures do)
lets the loop continue over the remaining references. -/
theorem c7_fetch_error_fatal (o : UddOptions)
    (lookup : Str → Option RegistryUrl) (u : Str) (us : List Str)
    (file : Str) (reg : RegistryUrl) (e : JsError)
    (hlk : lookup u = some reg) (hall : reg.allR = .error e) :
    (update o reg u file = .error e ∧
     runLoop o lookup (u :: us) file = .error e) ∧
    (∀ (u2 : Str) (reg2 : RegistryUrl) (res : UddResult) (f2 file0 : Str),
      lookup u2 = some reg2 → update o reg2 u2 file0 = .ok (res, f2) →
      runLoop o lookup (u2 :: us) file0 =
        (runLoop o lookup us f2).map (fun p => (res :: p.1, p.2))) := by
  constructor
  · have hupd : update o reg u file = .error e := by
      unfold update
      rw [hall]
    refine ⟨hupd, ?_⟩
    rw [runLoop_cons, hlk]
    dsimp only
    rw [hupd]
  · intro u2 reg2 res f2 file0 hlk2 hup2
    rw [runLoop_cons, hlk2]
    dsimp only
    rw [hup2]
    dsimp only
    cases hrest : runLoop o lookup us f2 with
    | error e2 => rfl
    | ok q => obtain ⟨rest, fz⟩ := q; rfl

/-- Witness for C7: a concrete fetch failure aborts the run. -/
theorem c7_fetch_error_witness :
    (update ⟨false, true⟩ (fakeReg (.error (.fetchError "boom".toList)))
        "x@1.0.0/y".toList "f".toList = .error (.fetchError "boom".toList) ∧
     runLoop ⟨false, true⟩
        (fun v => if v = "x@1.0.0/y".toList then
          some (fakeReg (.error (.fetchError "boom".toList))) else none)
        ["x@1.0.0/y".toList, "z@2.0.0/y".toList] "f".toList
        = .error (.fetchError "boom".toList)) ∧
    (∀ (u2 : Str) (reg2 : RegistryUrl) (res : UddResult) (f2 file0 : Str),
      (fun v => if v = "x@1.0.0/y".toList then
          some (fakeReg (.error (.fetchError "boom".toList))) else none) u2
        = some reg2 →
      update ⟨false, true⟩ reg2 u2 file0 = .ok (res, f2) →
      runLoop ⟨false, true⟩
        (fun v => if v = "x@1.0.0/y".toList then
          some (fakeReg (.error (.fetchError "boom".toList))) else none)
        (u2 :: ["z@2.0.0/y".toList]) file0 =
        (runLoop ⟨false, true⟩
          (fun v => if v = "x@1.0.0/y".toList then
            some (fakeReg (.error (.fetchError "boom".toList))) else none)
          ["z@2.0.0/y".toList] f2).map (fun p => (res :: p.1, p.2))) :=
  c7_fetch_error_fatal ⟨false, true⟩
    (fun v => if v = "x@1.0.0/y".toList then
      some (fakeReg (.error (.fetchError "boom".toList))) else none)
    "x@1.0.0/y".toList ["z@2.0.0/y".toList] "f".toList
    (fakeReg (.error (.fetchError "boom".toList)))
    (.fetchError "boom".toList) rfl rfl

/-- C5: a malformed constraint fragment raises a SyntaxError, which `update`
catches and converts into the per-reference outcome
`{initUrl, initVersion, success := false, message := parse error text}`
without modifying the file; the run loop then continues with the subsequent
references; and the catch around the constraint parse re-throws any error
that is not a SyntaxError. -/
theorem c5_syntax_error_outcome (o : UddOptions) (reg : RegistryUrl)
    (u0 file : Str) (versions : List Str) (hall : reg.allR = .ok versions)
    (hne : reg.vers u0 ≠ [])
    (hparse : (parseSemver (reg.vers (relocateRef reg u0).1)).isSome = true)
    (m : Str)
    (hfrag : fragment (relocateRef reg u0).1 (reg.vers (relocateRef reg u0).1)
      = .error (.syntaxError m)) :
    update o reg u0 file =
      .ok ({ initUrl := u0, initVersion := reg.vers u0,
             message := some m, success := some false }, file) ∧
    (∀ (lookup : Str → Option RegistryUrl) (us : List Str),
      lookup u0 = some reg →
      runLoop o lookup (u0 :: us) file =
        (runLoop o lookup us file).map
          (fun p =>
            (({ initUrl := u0, initVersion := reg.vers u0,
                message := some m, success := some false } : UddResult) :: p.1,
             p.2))) ∧
    (∀ e : JsError, (∀ m2, e ≠ .syntaxError m2) →
      fragmentCaught (.error e) = .error e) := by
  have hupd : update o reg u0 file =
      .ok ({ initUrl := u0, initVersion := reg.vers u0,
             message := some m, success := some false }, file) := by
    unfold update
    rw [hall]
    dsimp only
    have hdec : decideUpdate reg u0 versions = .ok (.syntaxErr m) := by
      unfold decideUpdate
      rw [if_neg hne]
      rcases hp : relocateRef reg u0 with ⟨u2, tok2⟩
      have hparse2 : (parseSemver (reg.vers u2)).isSome = true := by
        rw [hp] at hparse; exact hparse
      have hfrag2 : fragment u2 (reg.vers u2) = .error (.syntaxError m) := by
        rw [hp] at hfrag; exact hfrag
      dsimp only
      obtain ⟨sv, hsv⟩ := Option.isSome_iff_exists.mp hparse2
      rw [hsv]
      dsimp only
      rw [hfrag2]
      rfl
    rw [hdec]
  refine ⟨hupd, ?_, ?_⟩
  · intro lookup us hlk
    rw [runLoop_cons, hlk]
    dsimp only
    rw [hupd]
    dsimp only
    cases hrest : runLoop o lookup us file with
    | error e2 => rfl
    | ok q => obtain ⟨rest, fz⟩ := q; rfl
  · intro e hne2
    cases e with
    | typeError => rfl
    | syntaxError m2 => exact absurd rfl (hne2 m2)
    | fetchError m2 => rfl

/-- Witness for C5: the malformed fragment "#bogus" yields a failure outcome
with the parse error text and an unchanged file. -/
theorem c5_syntax_error_witness :
    update ⟨false, true⟩ (fakeReg (.ok ["1.4.2".toList]))
        "x@1.0.0/m#bogus".toList "f x@1.0.0/m#bogus g".toList =
      .ok ({ initUrl := "x@1.0.0/m#bogus".toList,
             initVersion := (fakeReg (.ok ["1.4.2".toList])).vers "x@1.0.0/m#bogus".toList,
             message := some ("invalid version fragment: bogus".toList),
             success := some false }, "f x@1.0.0/m#bogus g".toList) ∧
    (∀ (lookup : Str → Option RegistryUrl) (us : List Str),
      lookup "x@1.0.0/m#bogus".toList = some (fakeReg (.ok ["1.4.2".toList])) →
      runLoop ⟨false, true⟩ lookup ("x@1.0.0/m#bogus".toList :: us)
          "f x@1.0.0/m#bogus g".toList =
        (runLoop ⟨false, true⟩ lookup us "f x@1.0.0/m#bogus g".toList).map
          (fun p =>
            (({ initUrl := "x@1.0.0/m#bogus".toList,
                initVersion := (fakeReg (.ok ["1.4.2".toList])).vers "x@1.0.0/m#bogus".toList,
                message := some ("invalid version fragment: bogus".toList),
                success := some false } : UddResult) :: p.1,
             p.2))) ∧
    (∀ e : JsError, (∀ m2, e ≠ .syntaxError m2) →
      fragmentCaught (.error e) = .error e) :=
  c5_syntax_error_outcome ⟨false, true⟩ (fakeReg (.ok ["1.4.2".toList]))
    "x@1.0.0/m#bogus".toList "f x@1.0.0/m#bogus g".toList ["1.4.2".toList]
    rfl (by decide) (by decide)
    ("invalid version fragment: bogus".toList) (by decide)

/-- C3 (amended): for a reference with a constraint predicate, the chosen
target is the first version of the prerelease-filtered fetched list (in
provider order, restricted to strings that parse as semver) satisfying the
predicate; if no such version exists, `update` returns a failure outcome
with `success = false` and message "no compatible version found" and the
file is not modified. -/
theorem c3_constraint_first_match (o : UddOptions) (reg : RegistryUrl)
    (u0 file : Str) (versions : List Str) (hall : reg.allR = .ok versions)
    (hne : reg.vers u0 ≠ [])
    (hparse : (parseSemver (reg.vers (relocateRef reg u0).1)).isSome = true)
    (f : Constraint)
    (hfrag : fragment (relocateRef reg u0).1 (reg.vers (relocateRef reg u0).1)
      = .ok (some f)) :
    (compatList f (candidateVersions (reg.vers u0) versions) = [] →
      update o reg u0 file =
        .ok ({ initUrl := u0, initVersion := reg.vers u0,
               message := some ("no compatible version found".toList),
               success := some false }, file)) ∧
    (∀ v vs, compatList f (candidateVersions (reg.vers u0) versions) = v :: vs →
      decideUpdate reg u0 versions =
        .ok (finishDecision reg (relocateRef reg u0).1 (relocateRef reg u0).2
          (some v))) := by
  constructor
  · intro hc
    unfold update
    rw [hall]
    dsimp only
    have hdec : decideUpdate reg u0 versions = .ok .noCompatible := by
      unfold decideUpdate
      rw [if_neg hne]
      rcases hp : relocateRef reg u0 with ⟨u2, tok2⟩
      have hparse2 : (parseSemver (reg.vers u2)).isSome = true := by
        rw [hp] at hparse; exact hparse
      have hfrag2 : fragment u2 (reg.vers u2) = .ok (some f) := by
        rw [hp] at hfrag; exact hfrag
      dsimp only
      obtain ⟨sv, hsv⟩ := Option.isSome_iff_exists.mp hparse2
      rw [hsv]
      dsimp only
      rw [hfrag2]
      show (match compatList f (candidateVersions (reg.vers u0) versions) with
        | [] => Except.ok Decision.noCompatible
        | v :: _ => Except.ok (finishDecision reg u2 tok2 (some v)))
          = Except.ok Decision.noCompatible
      rw [hc]
    rw [hdec]
  · intro v vs hc
    rcases hp : relocateRef reg u0 with ⟨u2, tok2⟩
    have hparse2 : (parseSemver (reg.vers u2)).isSome = true := by
      rw [hp] at hparse; exact hparse
    have hfrag2 : fragment u2 (reg.vers u2) = .ok (some f) := by
      rw [hp] at hfrag; exact hfrag
    unfold decideUpdate
    rw [if_neg hne, hp]
    dsimp only
    obtain ⟨sv, hsv⟩ := Option.isSome_iff_exists.mp hparse2
    rw [hsv]
    dsimp only
    rw [hfrag2]
    show (match compatList f (candidateVersions (reg.vers u0) versions) with
      | [] => Except.ok Decision.noCompatible
      | v :: _ => Except.ok (finishDecision reg u2 tok2 (some v)))
        = _
    rw [hc]

/-- Witness for C3: fragment constraint `<2.0.0` with a nonempty compatible
list, and the first compatible version chosen. -/
theorem c3_constraint_witness :
    (compatList ⟨.less, ⟨2, 0, 0, [], [], "2.0.0".toList⟩⟩
        (candidateVersions ((fakeReg (.ok ["3.0.0".toList, "1.2.0".toList])).vers
          "x@1.0.0/m#<2.0.0".toList) ["3.0.0".toList, "1.2.0".toList]) = [] →
      update ⟨false, true⟩ (fakeReg (.ok ["3.0.0".toList, "1.2.0".toList]))
          "x@1.0.0/m#<2.0.0".toList "f".toList =
        .ok ({ initUrl := "x@1.0.0/m#<2.0.0".toList,
               initVersion := (fakeReg (.ok ["3.0.0".toList, "1.2.0".toList])).vers
                 "x@1.0.0/m#<2.0.0".toList,
               message := some ("no compatible version found".toList),
               success := some false }, "f".toList)) ∧
    (∀ v vs, compatList ⟨.less, ⟨2, 0, 0, [], [], "2.0.0".toList⟩⟩
        (candidateVersions ((fakeReg (.ok ["3.0.0".toList, "1.2.0".toList])).vers
          "x@1.0.0/m#<2.0.0".toList) ["3.0.0".toList, "1.2.0".toList]) = v :: vs →
      decideUpdate (fakeReg (.ok ["3.0.0".toList, "1.2.0".toList]))
          "x@1.0.0/m#<2.0.0".toList ["3.0.0".toList, "1.2.0".toList] =
        .ok (finishDecision (fakeReg (.ok ["3.0.0".toList, "1.2.0".toList]))
          (relocateRef (fakeReg (.ok ["3.0.0".toList, "1.2.0".toList]))
            "x@1.0.0/m#<2.0.0".toList).1
          (relocateRef (fakeReg (.ok ["3.0.0".toList, "1.2.0".toList]))
            "x@1.0.0/m#<2.0.0".toList).2
          (some v))) :=
  c3_constraint_first_match ⟨false, true⟩
    (fakeReg (.ok ["3.0.0".toList, "1.2.0".toList]))
    "x@1.0.0/m#<2.0.0".toList "f".toList ["3.0.0".toList, "1.2.0".toList]
    rfl (by decide) (by decide)
    ⟨.less, ⟨2, 0, 0, [], [], "2.0.0".toList⟩⟩ (by decide)

/-- Counterexample to C3 as stated: the constraint is applied to the
prerelease-filtered list, not the raw fetched list — with fetched versions
`["1.2.0-rc.1", "1.2.0"]` and constraint `<2.0.0` on a stable current
version, the first fetched semver-parsable version satisfying the predicate
is the prerelease `1.2.0-rc.1`, yet the code chooses `1.2.0`. -/
theorem c3_counterexample :
    decideUpdate (fakeReg (.ok ["1.2.0-rc.1".toList, "1.2.0".toList]))
        "x@1.0.0/m#<2.0.0".toList ["1.2.0-rc.1".toList, "1.2.0".toList]
      = .ok (.upgrade (some "1.2.0".toList) none "x@1.0.0/m#<2.0.0".toList) ∧
    fragment "x@1.0.0/m#<2.0.0".toList "1.0.0".toList
      = .ok (some ⟨.less, ⟨2, 0, 0, [], [], "2.0.0".toList⟩⟩) ∧
    (((["1.2.0-rc.1".toList, "1.2.0".toList].filterMap parseSemver).filter
        (fun x => Constraint.test ⟨.less, ⟨2, 0, 0, [], [], "2.0.0".toList⟩⟩ x)).map
        (fun x => x.version)).head? = some ("1.2.0-rc.1".toList) ∧
    some ("1.2.0".toList) ≠ some ("1.2.0-rc.1".toList) := by
  refine ⟨by decide, by decide, by decide, by decide⟩

/-- C4: when the initial version token is not a prerelease, prerelease
versions cannot influence the resolution — removing them from the fetched
list in advance changes nothing, so they are never chosen even if
numerically higher; when the initial version token is itself a prerelease,
the candidate list is the fetched list unchanged, prereleases included. -/
theorem c4_prerelease_policy (reg : RegistryUrl) (u0 : Str)
    (versions : List Str) :
    ((getPrereleaseVersion (reg.vers u0)).isNone = true →
      decideUpdate reg u0 versions =
        decideUpdate reg u0
          (versions.filter (fun v => (getPrereleaseVersion v).isNone))) ∧
    ((getPrereleaseVersion (reg.vers u0)).isSome = true →
      candidateVersions (reg.vers u0) versions = versions) := by
  constructor
  · intro hstable
    have hpre : ¬ ((getPrereleaseVersion (reg.vers u0)).isSome = true) := by
      cases h : getPrereleaseVersion (reg.vers u0) with
      | none => simp
      | some x => rw [h] at hstable; simp at hstable
    have hcand : candidateVersions (reg.vers u0) versions =
        candidateVersions (reg.vers u0)
          (versions.filter (fun v => (getPrereleaseVersion v).isNone)) := by
      unfold candidateVersions
      rw [if_neg hpre, if_neg hpre, List.filter_filter]
      simp
    unfold decideUpdate
    dsimp only
    rw [hcand]
  · intro hpre
    unfold candidateVersions
    rw [if_pos hpre]

/-- Witness for C4: a stable token is unaffected by dropping the prerelease
candidates, and a prerelease token keeps them. -/
theorem c4_prerelease_witness :
    decideUpdate (fakeReg (.ok ["1.1.0-beta.1".toList, "1.0.5".toList]))
        "x@1.0.0/m".toList ["1.1.0-beta.1".toList, "1.0.5".toList] =
      decideUpdate (fakeReg (.ok ["1.1.0-beta.1".toList, "1.0.5".toList]))
        "x@1.0.0/m".toList
        (["1.1.0-beta.1".toList, "1.0.5".toList].filter
          (fun v => (getPrereleaseVersion v).isNone)) ∧
    candidateVersions
        ((fakeReg (.ok ["1.1.0-beta.2".toList])).vers "x@1.1.0-beta.1/m".toList)
        ["1.1.0-beta.2".toList] = ["1.1.0-beta.2".toList] :=
  ⟨(c4_prerelease_policy (fakeReg (.ok ["1.1.0-beta.1".toList, "1.0.5".toList]))
      "x@1.0.0/m".toList ["1.1.0-beta.1".toList, "1.0.5".toList]).1 (by decide),
   (c4_prerelease_policy (fakeReg (.ok ["1.1.0-beta.2".toList]))
      "x@1.1.0-beta.1/m".toList ["1.1.0-beta.2".toList]).2 (by decide)⟩

/-- C2 (amended): a version token with a leading modifier and no fragment in
the url is relocated — the url becomes `at(initVersion.slice(1)).url#c` and
the modifier is re-attached to the chosen version — but the reported message
is the modifier followed by the chosen version followed by the
color-wrapped fragment text `#c`, not the bare `c ++ version`. -/
theorem c2_modifier_relocation (o : UddOptions) (reg : RegistryUrl)
    (u0 file : Str) (versions : List Str) (hall : reg.allR = .ok versions)
    (c : Char) (rest : Str) (hv : reg.vers u0 = c :: rest)
    (hmod : c = '~' ∨ c = '^' ∨ c = '=' ∨ c = '<') (hnofrag : '#' ∉ u0)
    (hparse : (parseSemver (reg.vers (reg.atv u0 rest ++ '#' :: [c]))).isSome
      = true)
    (f : Constraint)
    (hfrag : fragment (reg.atv u0 rest ++ '#' :: [c])
        (reg.vers (reg.atv u0 rest ++ '#' :: [c])) = .ok (some f))
    (v : Str) (vs : List Str)
    (hcompat : compatList f (candidateVersions (reg.vers u0) versions)
      = v :: vs) :
    relocateRef reg u0 = (reg.atv u0 rest ++ '#' :: [c], some [c]) ∧
    (∃ res file', update o reg u0 file = .ok (res, file') ∧
      res.message = some ([c] ++ v ++ yellow ('#' :: [c])) ∧
      res.success.isSome = true) := by
  have hne : reg.vers u0 ≠ [] := by rw [hv]; simp
  have hrel : relocateRef reg u0 =
      (reg.atv u0 rest ++ '#' :: [c], some [c]) := by
    unfold relocateRef
    rw [hv]
    dsimp only
    rw [if_pos ⟨hmod, hnofrag⟩]
  refine ⟨hrel, ?_⟩
  have hdec : decideUpdate reg u0 versions =
      .ok (.upgrade (some ([c] ++ v)) (some [c])
        (reg.atv u0 rest ++ '#' :: [c])) := by
    unfold decideUpdate
    rw [if_neg hne, hrel]
    dsimp only
    obtain ⟨sv, hsv⟩ := Option.isSome_iff_exists.mp hparse
    rw [hsv]
    dsimp only
    rw [hfrag]
    dsimp only [fragmentCaught]
    rw [hcompat]
    dsimp only
    unfold finishDecision
    rw [if_neg (by simp)]
    simp [jsToString]
  rcases hpair : (if o.dryRun = true then (false, file)
      else maybeReplace o reg (reg.atv u0 rest ++ '#' :: [c])
        (some ([c] ++ v)) u0 file) with ⟨fl, f2⟩
  have hupd : update o reg u0 file =
      .ok ({ initUrl := u0, initVersion := reg.vers u0,
             message := some (jsToString (some ([c] ++ v)) ++ yellow ('#' :: [c])),
             success := some (!fl) }, f2) := by
    unfold update
    rw [hall]
    dsimp only
    rw [hdec]
    dsimp only
    rw [hpair]
  exact ⟨_, f2, hupd, by simp [jsToString], rfl⟩

/-- Witness for C2 (amended): scenario B — token `^1.0.0`, versions
`[1.4.2, 2.0.0, 1.0.0]` — relocates to `#^` and reports
`^1.4.2` followed by the colored `#^`. -/
theorem c2_modifier_witness :
    relocateRef (fakeReg (.ok ["1.4.2".toList, "2.0.0".toList, "1.0.0".toList]))
        "x@^1.0.0/m".toList =
      ((fakeReg (.ok ["1.4.2".toList, "2.0.0".toList, "1.0.0".toList])).atv
        "x@^1.0.0/m".toList "1.0.0".toList ++ '#' :: ['^'], some ['^']) ∧
    (∃ res file', update ⟨false, true⟩
        (fakeReg (.ok ["1.4.2".toList, "2.0.0".toList, "1.0.0".toList]))
        "x@^1.0.0/m".toList "f x@^1.0.0/m g".toList = .ok (res, file') ∧
      res.message = some (['^'] ++ "1.4.2".toList ++ yellow ('#' :: ['^'])) ∧
      res.success.isSome = true) :=
  c2_modifier_relocation ⟨false, true⟩
    (fakeReg (.ok ["1.4.2".toList, "2.0.0".toList, "1.0.0".toList]))
    "x@^1.0.0/m".toList "f x@^1.0.0/m g".toList
    ["1.4.2".toList, "2.0.0".toList, "1.0.0".toList] rfl
    '^' "1.0.0".toList (by decide) (by simp) (by decide) (by decide)
    ⟨.caret, ⟨1, 0, 0, [], [], "1.0.0".toList⟩⟩ (by decide)
    "1.4.2".toList ["1.0.0".toList] (by decide)

/-- Counterexample to C2 as stated: in scenario B the reported message is
`^1.4.2` followed by the color-wrapped fragment `#^`, which differs from the
bare `^1.4.2` the claim asserts. -/
theorem c2_message_counterexample :
    (update ⟨true, true⟩
        (fakeReg (.ok ["1.4.2".toList, "2.0.0".toList, "1.0.0".toList]))
        "x@^1.0.0/m".toList "f x@^1.0.0/m g".toList).map
      (fun p => p.1.message)
      = .ok (some ("^1.4.2".toList ++ yellow ("#^".toList))) ∧
    some ("^1.4.2".toList ++ yellow ("#^".toList)) ≠ some ("^1.4.2".toList) := by
  refine ⟨by decide, by decide⟩

/-- C9: for a stable semver token with no constraint, when the fetched list
has no stable version the candidate list is empty, yet `update` does not
report "no compatible version found": the target is the undefined value
`versions[0]` of the empty list, and outside dry-run the code proceeds to
the replace path, writing `at("undefined")` into the file and reporting a
message built from the string "undefined". -/
theorem c9_undefined_target (o : UddOptions) (reg : RegistryUrl)
    (u0 file : Str) (versions : List Str) (hall : reg.allR = .ok versions)
    (hdry : o.dryRun = false) (htest : o.test = true)
    (hne : reg.vers u0 ≠ [])
    (hnorel : relocateRef reg u0 = (u0, none))
    (hparse : (parseSemver (reg.vers u0)).isSome = true)
    (hfrag : fragment u0 (reg.vers u0) = .ok none)
    (hempty : candidateVersions (reg.vers u0) versions = []) :
    update o reg u0 file =
      .ok ({ initUrl := u0, initVersion := reg.vers u0,
             message := some ("undefined".toList ++ yellow []),
             success := some true },
        replaceStr u0 (reg.atv u0 ("undefined".toList)) file) := by
  have hdec : decideUpdate reg u0 versions = .ok (.upgrade none none u0) := by
    unfold decideUpdate
    rw [if_neg hne, hnorel]
    dsimp only
    obtain ⟨sv, hsv⟩ := Option.isSome_iff_exists.mp hparse
    rw [hsv]
    dsimp only
    rw [hfrag]
    dsimp only [fragmentCaught]
    rw [hempty]
    dsimp only [List.head?]
    unfold finishDecision
    rw [if_neg (by simp)]
  unfold update
  rw [hall]
  dsimp only
  rw [hdec]
  simp [hdry, maybeReplace, htest, jsToString]

/-- Witness for C9: all fetched versions are prereleases while the current
version is stable — the file is rewritten to `at("undefined")`. -/
theorem c9_undefined_target_witness :
    update ⟨false, true⟩ (fakeReg (.ok ["1.1.0-beta.1".toList]))
        "x@1.0.0/m".toList "f x@1.0.0/m g".toList =
      .ok ({ initUrl := "x@1.0.0/m".toList,
             initVersion := (fakeReg (.ok ["1.1.0-beta.1".toList])).vers
               "x@1.0.0/m".toList,
             message := some ("undefined".toList ++ yellow []),
             success := some true },
        replaceStr "x@1.0.0/m".toList
          ((fakeReg (.ok ["1.1.0-beta.1".toList])).atv "x@1.0.0/m".toList
            ("undefined".toList)) "f x@1.0.0/m g".toList) :=
  c9_undefined_target ⟨false, true⟩ (fakeReg (.ok ["1.1.0-beta.1".toList]))
    "x@1.0.0/m".toList "f x@1.0.0/m g".toList ["1.1.0-beta.1".toList]
    rfl rfl rfl (by decide) (by decide) (by decide) (by decide) (by decide)
